import Mathlib

/-!
Verification development for the browser-redaction-tool repository
(`python_redaction_system`).

The Python core is shallowly embedded below:

* text buffers are `List Char`; offsets are `Nat`;
* Python dicts (which preserve insertion order and update keys in place)
  are association lists `List (α × β)` with `lookupA` / `setA`;
* the `re` module, spaCy and Presidio are external collaborators: their
  outputs (match spans per rule, detected entities, per-chunk processing
  results) are parameters of the embedded functions, and a Python
  exception escaping such a collaborator is an `Except.error`;
* `random.choice` / `random.randint` consume successive values of a
  randomness tape carried in the entity tracker state.

Every embedded definition is translated from the corresponding function of
the source tree (file and function named at each definition); the one
exception, marked `Modelled from the spec:`, is the multi-backend tier
orchestrator of spec section 4.6, whose code is not part of `src/`.
-/

set_option autoImplicit false

namespace Redaction

/-- A half-open character span `[start, end)` into a text buffer, as used by
`re.Match.span()` and by the span bookkeeping in
`core/redaction_engine.py` (`RedactionEngine.redact_text`). -/
abbrev Span : Type := Nat × Nat

/-- Length of a span, `span[1] - span[0]` in the Python source. -/
def spanLen (s : Span) : Nat := s.2 - s.1

/-- The disjointness relation of the resolved-span invariant:
`a.end <= b.start or b.end <= a.start`. -/
def disjointSpan (a b : Span) : Prop := a.2 ≤ b.1 ∨ b.2 ≤ a.1

instance : DecidablePred fun p : Span × Span => disjointSpan p.1 p.2 := by
  intro p; unfold disjointSpan; infer_instance

instance (a b : Span) : Decidable (disjointSpan a b) := by
  unfold disjointSpan; infer_instance

/-! ## Association lists (Python `dict` with insertion order) -/

section AMap

variable {α : Type} {β : Type} [DecidableEq α]

/-- Lookup of a key in an insertion-ordered association list (`d[k]` /
`k in d` for a Python dict). -/
def lookupA : List (α × β) → α → Option β
  | [], _ => none
  | p :: rest, k => if p.1 = k then some p.2 else lookupA rest k

/-- `d[k] = v` on a Python dict: updates the first entry with key `k` in
place (keeping its position) or appends a fresh entry at the end. -/
def setA : List (α × β) → α → β → List (α × β)
  | [], k, v => [(k, v)]
  | p :: rest, k, v => if p.1 = k then (k, v) :: rest else p :: setA rest k v

/-- Sum of `f` over the values of an association list. -/
def sumBy (f : β → Nat) : List (α × β) → Nat
  | [] => 0
  | p :: m => f p.2 + sumBy f m

end AMap

/-! ## Overlap resolution
(`core/redaction_engine.py`, `RedactionEngine.redact_text`)

The two resolution loops of `redact_text` share one shape: scan the
accepted spans; on the first overlapping accepted span at least as long as
the candidate, stop (`overlap = True; break`); overlapping accepted spans
strictly shorter than the candidate that were scanned before the stop are
marked for removal; marked spans are removed in every case, and the
candidate is accepted only when no stop happened.  They differ only in the
overlap test: the rule-detection loop (lines 379-405) treats touching
spans as overlapping (`match_span[0] <= end and match_span[1] >= start`),
the substitution loop (lines 443-462) uses strict overlap
(`span[0] < existing_span[1] and span[1] > existing_span[0]`). -/

/-- Overlap test of the rule-detection loop (closed: touching counts). -/
def closedOv (c a : Span) : Bool := decide (c.1 ≤ a.2) && decide (c.2 ≥ a.1)

/-- Overlap test of the substitution loop (strict). -/
def strictOv (c a : Span) : Bool := decide (c.1 < a.2) && decide (c.2 > a.1)

/-- One scan of the accepted spans for candidate `c`: returns the
`overlap` flag and the `spans_to_remove` list collected before a `break`. -/
def scanOv (ovp : Span → Span → Bool) : List Span → Span → Bool × List Span
  | [], _ => (false, [])
  | a :: rest, c =>
    if ovp c a then
      if spanLen c ≤ spanLen a then (true, [])
      else
        let r := scanOv ovp rest c
        (r.1, a :: r.2)
    else scanOv ovp rest c

/-- One resolution step: scan, remove the marked spans, and append the
candidate when it was not rejected.  Returns (rejected?, new accepted list). -/
def stepSpan (ovp : Span → Span → Bool) (acc : List Span) (c : Span) :
    Bool × List Span :=
  let r := scanOv ovp acc c
  let kept := acc.filter (fun a => decide (a ∉ r.2))
  (r.1, if r.1 then kept else kept ++ [c])

/-- The accepted-span list after one candidate. -/
def addSpanWith (ovp : Span → Span → Bool) (acc : List Span) (c : Span) : List Span :=
  (stepSpan ovp acc c).2

/-- Resolution of a candidate sequence, in arrival order. -/
def resolveWith (ovp : Span → Span → Bool) (cs : List Span) : List Span :=
  cs.foldl (addSpanWith ovp) []

/-- The substitution-loop resolver (insertion-ordered dict of spans). -/
def resolveSubst (cs : List Span) : List Span := resolveWith strictOv cs

/-- The rule-detection-loop resolver (the `detected_spans` set, modelled
with insertion-order traversal). -/
def resolveDetected (cs : List Span) : List Span := resolveWith closedOv cs

/-! ## String utilities (the Python `str` operations used by the core) -/

/-- Whitespace characters of `str.isspace()` / `str.strip()` (ASCII part). -/
def isPySpace (c : Char) : Bool :=
  c = ' ' || c = '\t' || c = '\n' || c = '\r' || c = '\x0b' || c = '\x0c'

/-- The skip test `if not match_text or match_text.isspace()` of
`RedactionEngine.redact_text`. -/
def skipMatch (l : List Char) : Bool := l.isEmpty || l.all isPySpace

/-- Python slicing `text[start:end]`. -/
def sliceL (text : List Char) (sp : Span) : List Char := (text.take sp.2).drop sp.1

/-- Python `str.lower()` (ASCII part). -/
def lowerL (l : List Char) : List Char := l.map Char.toLower

/-- Python substring test `pat in text`. -/
def containsSub (pat : List Char) : List Char → Bool
  | [] => pat.isPrefixOf []
  | c :: t => pat.isPrefixOf (c :: t) || containsSub pat t

/-- Python `str.strip()`: drop leading and trailing whitespace. -/
def pstrip (l : List Char) : List Char :=
  ((l.dropWhile isPySpace).reverse.dropWhile isPySpace).reverse

/-- The spans produced by the `pos = text.find(entity_text, start_pos)`
loop of `RedactionEngine.redact_text`: leftmost occurrences of `pat`
starting at offset `base`, each restart just past the previous occurrence.
For `pat = []` this returns `[]` (the Python loop would not advance; empty
entity texts are filtered out before reaching it). -/
def findOccsFrom (pat : List Char) : Nat → List Char → Nat → List Span
  | 0, _, _ => []
  | fuel + 1, l, base =>
    if pat = [] then []
    else if pat.isPrefixOf l then
      (base, base + pat.length) ::
        findOccsFrom pat fuel (l.drop pat.length) (base + pat.length)
    else
      match l with
      | [] => []
      | _ :: rest => findOccsFrom pat fuel rest (base + 1)

/-- Each Python loop iteration advances the search start by at least one
character, so `text.length + 1` iterations always suffice; the explicit
bound makes the recursion structural. -/
def findOccs (text pat : List Char) : List Span :=
  findOccsFrom pat (text.length + 1) text 0

def splitSeqFuel (pat : List Char) : Nat → List Char → List (List Char)
  | 0, l => [l]
  | fuel + 1, l =>
    if pat = [] then [l]
    else if pat.isPrefixOf l then
      [] :: splitSeqFuel pat fuel (l.drop pat.length)
    else
      match l with
      | [] => [[]]
      | c :: rest =>
        match splitSeqFuel pat fuel rest with
        | [] => [[c]]
        | p :: ps => (c :: p) :: ps

/-- Python `str.split(sep)` for a non-empty separator (for `sep = []` the
Python call raises; the source only splits on `"\n\n"`).  Every step
consumes at least one character, so `l.length + 1` fuel always suffices;
the explicit bound makes the recursion structural. -/
def splitSeq (pat l : List Char) : List (List Char) :=
  splitSeqFuel pat (l.length + 1) l

/-- Python `str.replace(pat, repl)` for a non-empty `pat` (the engine never
substitutes an empty entity text: empty matches are filtered out). -/
def replaceAll (txt pat repl : List Char) : List Char :=
  if pat = [] then txt else List.intercalate repl (splitSeq pat txt)

/-- The paragraph separator `"\n\n"`. -/
def nl2 : List Char := ['\n', '\n']

def chunksOfFuel (mx : Nat) : Nat → List Char → List (List Char)
  | 0, l => [l]
  | fuel + 1, l =>
    if mx = 0 ∨ l.length ≤ mx then [l]
    else l.take mx :: chunksOfFuel mx fuel (l.drop mx)

/-- The fixed-size slices `paragraph[j:j+MAX_TEXT_SIZE]` produced by
`for j in range(0, len(paragraph), MAX_TEXT_SIZE)` in
`PresidioRedactionEngine.redact_text` (for `mx = 0` the Python range
raises; the source constant is positive).  Every slice is non-empty, so
`l.length + 1` fuel always suffices; the explicit bound makes the
recursion structural. -/
def chunksOf (mx : Nat) (l : List Char) : List (List Char) :=
  chunksOfFuel mx (l.length + 1) l

/-- Word characters for the regex `\b` boundary. -/
def isWordChar (c : Char) : Bool := c.isAlphanum || c = '_'

def optWord : Option Char → Bool
  | none => false
  | some c => isWordChar c

/-- Scanner for `re.sub(r"\b" + re.escape(pat) + r"\b", repl, text)`:
`prev` is the character just before the current scan position. -/
def wbGo (pat repl : List Char) (prev : Option Char) (l : List Char) : List Char :=
  match l with
  | [] => []
  | c :: rest =>
    if h : (!pat.isEmpty && pat.isPrefixOf (c :: rest)
        && (optWord prev != optWord (some c))
        && (optWord pat.getLast? != optWord ((c :: rest)[pat.length]?))) = true then
      repl ++ wbGo pat repl pat.getLast? ((c :: rest).drop pat.length)
    else
      c :: wbGo pat repl (some c) rest
termination_by l.length
decreasing_by
  · simp only [Bool.and_eq_true, List.isEmpty_eq_false_iff_exists_mem] at h
    have hne : pat ≠ [] := by
      rcases h with ⟨⟨⟨h0, _⟩, _⟩, _⟩
      intro hc
      simp [hc] at h0
    have h1' : pat.length ≠ 0 := fun hc => hne (List.length_eq_zero.mp hc)
    simp only [List.length_drop, List.length_cons]
    omega
  · simp

/-- `SemanticRedactionEngine._replace_with_context` word-boundary branch. -/
def wordBoundaryReplace (txt pat repl : List Char) : List Char := wbGo pat repl none txt

/-! ## Entity tracker (`core/semantic_redaction.py`, class `EntityTracker`)

The `random` module is an external collaborator: its successive draws are
modelled by a randomness tape `rand : Nat → Nat` with a cursor `randIdx`;
`random.choice(seq)` picks `seq[rand cursor % len(seq)]`. -/

structure EntityTracker where
  /-- `self.entity_map`: category → original entity text → replacement. -/
  entity_map : List (String × List (List Char × List Char))
  /-- `self.generated_names["PERSON"]`. -/
  generatedPerson : List (List Char)
  /-- `self.generated_names["LOCATION"]`. -/
  generatedLocation : List (List Char)
  /-- `self.generated_names["ORGANIZATION"]`. -/
  generatedOrganization : List (List Char)
  /-- Randomness tape standing for the global `random` state. -/
  rand : Nat → Nat
  randIdx : Nat

/-- A fresh `EntityTracker()` over a given randomness tape. -/
def EntityTracker.init (rand : Nat → Nat) : EntityTracker :=
  ⟨[], [], [], [], rand, 0⟩

/-- Draw one tape value reduced modulo `n`. -/
def draw (tr : EntityTracker) (n : Nat) : Nat × EntityTracker :=
  (tr.rand tr.randIdx % n, { tr with randIdx := tr.randIdx + 1 })

/-- `random.choice(l)` (the source never calls it on an empty sequence). -/
def pick {γ : Type} (tr : EntityTracker) (l : List γ) (dflt : γ) : γ × EntityTracker :=
  let r := draw tr l.length
  (l.getD r.1 dflt, r.2)

/-- `random.randint(a, b)` (inclusive bounds). -/
def randint (tr : EntityTracker) (a b : Nat) : Nat × EntityTracker :=
  let r := draw tr (b + 1 - a)
  (a + r.1, r.2)

def first_names : List String :=
  ["Alex", "Bailey", "Cameron", "Dakota", "Emerson", "Finley", "Jordan", "Morgan",
   "Parker", "Quinn", "Riley", "Sam", "Taylor", "Avery", "Casey", "Jamie", "Kendall"]

def last_names : List String :=
  ["Smith", "Johnson", "Williams", "Jones", "Brown", "Davis", "Miller", "Wilson",
   "Anderson", "Thomas", "Jackson", "White", "Harris", "Martin", "Thompson"]

def city_names : List String :=
  ["Westfield", "Fairview", "Riverdale", "Springwood", "Lakeside", "Oakridge",
   "Pine Valley", "Meadowbrook", "Greenville", "Brookside", "Millfield", "Cedarville"]

def street_names : List String :=
  ["Main St", "Maple Ave", "Oak Dr", "Cedar Ln", "Elm St", "Washington Ave",
   "Park Rd", "Highland Ave", "Sunset Blvd", "Lake View Dr", "Forest Ave"]

def state_names : List String :=
  ["North Region", "South Region", "East Region", "West Region",
   "Central Area", "Northeast Zone", "Southwest Territory"]

def org_prefixes : List String :=
  ["Global", "National", "International", "United", "Advanced", "Technical",
   "Universal", "Dynamic", "Innovative", "Strategic", "Progressive", "Premier"]

def org_cores : List String :=
  ["Solutions", "Systems", "Technologies", "Industries", "Enterprises",
   "Services", "Associates", "Partners", "Consulting", "Group", "Network"]

def org_types : List String :=
  ["Inc.", "Corp.", "LLC", "Ltd.", "Association", "Foundation", "Agency",
   "Company", "Organization", "Consortium", "Institute"]

/-- `EntityTracker._generate_person_name`. -/
def generate_person_name (tr : EntityTracker) : List Char × EntityTracker :=
  let unused :=
    (first_names.map (fun f =>
      (last_names.filter (fun l =>
        !decide ((f ++ " " ++ l).data ∈ tr.generatedPerson))).map (fun l => (f, l)))).flatten
  if unused.isEmpty then
    let r1 := pick tr first_names ""
    let r2 := pick r1.2 last_names ""
    let r3 := randint r2.2 1 999
    let full := (r1.1 ++ " " ++ r2.1 ++ "-" ++ toString r3.1).data
    (full, { r3.2 with generatedPerson := r3.2.generatedPerson ++ [full] })
  else
    let r := pick tr unused ("", "")
    let full := (r.1.1 ++ " " ++ r.1.2).data
    (full, { r.2 with generatedPerson := r.2.generatedPerson ++ [full] })

/-- `EntityTracker._generate_location_name`. -/
def generate_location_name (tr : EntityTracker) : List Char × EntityTracker :=
  let rt := pick tr ["address", "city", "region"] ""
  let rl :=
    if rt.1 = "address" then
      let rn := randint rt.2 1 9999
      let rs := pick rn.2 street_names ""
      let rc := pick rs.2 city_names ""
      ((toString rn.1 ++ " " ++ rs.1 ++ ", " ++ rc.1).data, rc.2)
    else if rt.1 = "city" then
      let rc := pick rt.2 city_names ""
      (rc.1.data, rc.2)
    else
      let rs := pick rt.2 state_names ""
      (rs.1.data, rs.2)
  let rf :=
    if rl.1 ∈ rl.2.generatedLocation then
      let rk := randint rl.2 1 999
      (rl.1 ++ ('-' :: (toString rk.1).data), rk.2)
    else rl
  (rf.1, { rf.2 with generatedLocation := rf.2.generatedLocation ++ [rf.1] })

/-- `EntityTracker._generate_organization_name`. -/
def generate_organization_name (tr : EntityTracker) : List Char × EntityTracker :=
  let rc := pick tr ["simple", "complex"] ""
  let rn :=
    if rc.1 = "simple" then
      let r1 := pick rc.2 org_cores ""
      let r2 := pick r1.2 org_types ""
      ((r1.1 ++ " " ++ r2.1).data, r2.2)
    else
      let r0 := pick rc.2 org_prefixes ""
      let r1 := pick r0.2 org_cores ""
      let r2 := pick r1.2 org_types ""
      ((r0.1 ++ " " ++ r1.1 ++ " " ++ r2.1).data, r2.2)
  let rf :=
    if rn.1 ∈ rn.2.generatedOrganization then
      let rk := randint rn.2 1 999
      (rn.1 ++ ('-' :: (toString rk.1).data), rk.2)
    else rn
  (rf.1, { rf.2 with generatedOrganization := rf.2.generatedOrganization ++ [rf.1] })

/-- `EntityTracker._generate_credit_card`. -/
def generate_credit_card : List Char := "XXXX-XXXX-XXXX-XXXX".data

/-- `random.choices(string.digits, k=n)` joined. -/
def drawDigits : Nat → EntityTracker → List Char × EntityTracker
  | 0, tr => ([], tr)
  | n + 1, tr =>
    let r := draw tr 10
    let rest := drawDigits n r.2
    ("0123456789".data.getD r.1 '0' :: rest.1, rest.2)

/-- `EntityTracker._generate_replacement`. -/
def generate_replacement (tr : EntityTracker) (category : String)
    (entity_text : List Char) (entity_type : Option String) :
    List Char × EntityTracker :=
  if category = "PII" ∧ entity_type = some "PERSON" then
    generate_person_name tr
  else if category = "LOCATIONS" ∨ entity_type = some "GPE" ∨ entity_type = some "LOC"
      ∨ entity_type = some "FAC" then
    generate_location_name tr
  else if category = "PII" ∧ entity_type = some "ORG" then
    generate_organization_name tr
  else if category = "FINANCIAL" ∧ containsSub "CREDIT_CARD".data entity_text then
    (generate_credit_card, tr)
  else if category = "FINANCIAL" ∧ (containsSub "account".data (lowerL entity_text)
      ∨ containsSub "acct".data (lowerL entity_text)) then
    let r := drawDigits 8 tr
    ("ACCT-".data ++ r.1, r.2)
  else if category = "PII" ∧ (containsSub "ssn".data (lowerL entity_text)
      ∨ containsSub "social security".data (lowerL entity_text)) then
    ("SSN-REDACTED".data, tr)
  else if category = "PHI" ∧ (containsSub "mrn".data (lowerL entity_text)
      ∨ containsSub "medical record".data (lowerL entity_text)) then
    ("MRN-REDACTED".data, tr)
  else if category = "PII" ∧ (containsSub "email".data (lowerL entity_text)
      ∨ containsSub "@".data (lowerL entity_text)) then
    ("EMAIL-REDACTED".data, tr)
  else if category = "PII" ∧ (containsSub "phone".data (lowerL entity_text)
      ∨ containsSub "tel".data (lowerL entity_text)
      ∨ containsSub "mobile".data (lowerL entity_text)) then
    ("PHONE-REDACTED".data, tr)
  else
    (('[' :: category.data) ++ "-REDACTED]".data, tr)

/-- `EntityTracker.get_replacement`: memoised replacement per
`(category, entity_text)`. -/
def get_replacement (tr : EntityTracker) (category : String)
    (entity_text : List Char) (entity_type : Option String) :
    List Char × EntityTracker :=
  let tr1 :=
    if (lookupA tr.entity_map category).isNone then
      { tr with entity_map := tr.entity_map ++ [(category, [])] }
    else tr
  match lookupA ((lookupA tr1.entity_map category).getD []) entity_text with
  | some r => (r, tr1)
  | none =>
    let g := generate_replacement tr1 category entity_text entity_type
    let em := setA g.2.entity_map category
      (setA ((lookupA g.2.entity_map category).getD []) entity_text g.1)
    (g.1, { g.2 with entity_map := em })

/-- A sequence of further `get_replacement` calls within one tracker
session (each call threads the tracker state). -/
def runCalls (tr : EntityTracker)
    (calls : List (String × List Char × Option String)) : EntityTracker :=
  calls.foldl (fun s c => (get_replacement s c.1 c.2.1 c.2.2).2) tr

/-! ## Semantic redaction (`core/semantic_redaction.py`,
class `SemanticRedactionEngine`) -/

/-- The marker `f"[{category}:{entity_type}]"` built at
`core/redaction_engine.py` line 431. -/
def markerE (category typ : String) : List Char :=
  ('[' :: category.data) ++ (':' :: typ.data) ++ "]".data

/-- The marker `f"[{category}:{entity_type or 'UNKNOWN'}]"` of
`SemanticRedactionEngine.redact_text_with_context`; the Python `or` falls
back to `UNKNOWN` for both `None` and the empty string. -/
def markerS (category : String) (typ : Option String) : List Char :=
  markerE category
    (match typ with
     | none => "UNKNOWN"
     | some t => if t = "" then "UNKNOWN" else t)

/-- Stable insertion keeping earlier elements first among equal keys. -/
def insByLen {γ : Type} (key : γ → Nat) (x : γ) : List γ → List γ
  | [] => [x]
  | y :: ys => if key y < key x then x :: y :: ys else y :: insByLen key x ys

/-- `list.sort(key=lambda x: len(x[0]), reverse=True)`: stable descending
sort by length. -/
def sortByLenDesc {γ : Type} (key : γ → Nat) (l : List γ) : List γ :=
  l.foldl (fun acc x => insByLen key x acc) []

/-- `SemanticRedactionEngine._replace_with_context`. -/
def replace_with_context (text entity_text replacement : List Char) : List Char :=
  if entity_text.length ≤ 3 then wordBoundaryReplace text entity_text replacement
  else replaceAll text entity_text replacement

/-- `SemanticRedactionEngine.redact_text_with_context`. -/
def redact_text_with_context (tr : EntityTracker) (text : List Char)
    (entities : List (String × List (List Char × Option String)))
    (use_pseudonyms : Bool) : List Char × EntityTracker :=
  let all := entities.foldl
    (fun acc p => acc ++ p.2.map (fun e => (e.1, p.1, e.2))) []
  let sorted := sortByLenDesc (fun t => t.1.length) all
  sorted.foldl
    (fun (acc : List Char × EntityTracker) t =>
      if t.1.isEmpty then acc
      else
        let rp :=
          if use_pseudonyms then get_replacement acc.2 t.2.1 t.1 t.2.2
          else (markerS t.2.1 t.2.2, acc.2)
        (replace_with_context acc.1 t.1 rp.1, rp.2))
    (text, tr)

/-! ## Rule manager (`core/rule_manager.py`, class `RuleManager`) -/

/-- `RuleManager._sensitivity_mapping`. -/
def sensitivity_mapping : List (String × List String) :=
  [("low", ["PII", "CREDENTIALS"]),
   ("medium", ["PII", "PHI", "CREDENTIALS", "FINANCIAL"]),
   ("high", ["PII", "PHI", "CREDENTIALS", "FINANCIAL", "LOCATIONS"])]

/-- `RuleManager.get_categories_for_sensitivity`: raises `ValueError` for a
level outside the mapping. -/
def get_categories_for_sensitivity (level : String) : Except String (List String) :=
  match lookupA sensitivity_mapping level with
  | some cs => .ok cs
  | none => .error ("Invalid sensitivity level: " ++ level)

/-- `RedactionEngine.set_sensitivity` (`core/redaction_engine.py`): raises
`ValueError` unless the level is low, medium or high; otherwise the stored
`self.sensitivity_level` becomes the argument (returned here as the new
stored value). -/
def set_sensitivity (level : String) : Except String String :=
  if ["low", "medium", "high"].contains level then .ok level
  else .error "Sensitivity level must be low, medium, or high"

/-! ## Rule-based engine (`core/redaction_engine.py`,
`RedactionEngine.redact_text`) -/

/-- Per-category redaction statistics (`redaction_stats`). -/
abbrev Stats := List (String × Nat)

/-- `all_detected_entities`: category → list of `(matched_text, source)`
pairs, where `source` is the rule name for rule matches and the spaCy
entity label for NLP matches. -/
abbrev Detected := List (String × List (List Char × String))

/-- The external detection collaborators of `redact_text`, as data:
`nlp` is the result of `detect_entities` (spaCy; confidence filtering and
entity-type mapping happen inside that external call, an escaped exception
is `.error`), and `rules cat` is `get_rules_for_category(cat)` paired with
each rule's `re.finditer` outcome on the input text — the span of each
match, already resolved to the first capture group when the pattern has
one (a per-rule exception is `.error`). -/
structure DetectOracle where
  nlp : Except Unit (List (String × List (List Char × String)))
  rules : String → List (String × Except Unit (List Span))

/-- `redaction_stats = {category: 0 for category in categories}`. -/
def statsInit (cats : List String) : Stats := cats.foldl (fun m c => setA m c 0) []

/-- `redaction_stats[category] += 1` (the key is always present when the
source executes this; the append branch is unreachable there). -/
def incrStat (st : Stats) (c : String) : Stats :=
  setA st c ((lookupA st c).getD 0 + 1)

/-- `all_detected_entities[category].append(e)`. -/
def appendEntity (ad : Detected) (c : String) (e : List Char × String) : Detected :=
  setA ad c ((lookupA ad c).getD [] ++ [e])

/-- `if category not in all_detected_entities: all_detected_entities[category] = []`. -/
def ensureKey (ad : Detected) (c : String) : Detected :=
  if (lookupA ad c).isNone then ad ++ [(c, [])] else ad

/-- The detection half of `RedactionEngine.redact_text` (lines 309-408):
stats initialisation, the NLP entity pass, and the rule pass with its
overlap bookkeeping on `detected_spans` (a Python `set`, modelled with
insertion-order traversal).  Returns
`(all_detected_entities, redaction_stats, detected_spans)`. -/
def detectPhase (o : DetectOracle) (text : List Char) (cats : List String)
    (use_nlp has_nlp : Bool) : Detected × Stats × List Span :=
  let stats0 := statsInit cats
  let nlpAcc : Detected × Stats :=
    if use_nlp && has_nlp then
      match o.nlp with
      | .error _ => ([], stats0)
      | .ok ents =>
        (ents.filter (fun p => cats.contains p.1)).foldl
          (fun acc p =>
            let ad := ensureKey acc.1 p.1
            p.2.foldl
              (fun acc2 e =>
                if skipMatch e.1 then acc2
                else (appendEntity acc2.1 p.1 e, incrStat acc2.2 p.1))
              (ad, acc.2))
          ([], stats0)
    else ([], stats0)
  cats.foldl
    (fun acc cat =>
      let ad := ensureKey acc.1 cat
      (o.rules cat).foldl
        (fun acc2 rule =>
          match rule.2 with
          | .error _ => acc2
          | .ok spans =>
            spans.foldl
              (fun acc3 sp =>
                let mtext := sliceL text sp
                if skipMatch mtext then acc3
                else
                  let r := stepSpan closedOv acc3.2.2 sp
                  if r.1 then (acc3.1, acc3.2.1, r.2)
                  else (appendEntity acc3.1 cat (mtext, rule.1),
                        incrStat acc3.2.1 cat, r.2))
              acc2)
        (ad, acc.2))
    (nlpAcc.1, nlpAcc.2, ([] : List Span))

/-- The substitution half of `RedactionEngine.redact_text` without context
preservation (lines 420-464): build `span_to_replacement` by finding every
occurrence of each detected entity and resolving overlaps with the strict
test, generating each entity's replacement once (entity tracker when
pseudonyms are on, the `[category:source]` marker otherwise). -/
def buildSpanMap (text : List Char) (ad : Detected)
    (use_pseudonyms has_semantic : Bool) (tr : EntityTracker) :
    List (Span × List Char) × EntityTracker :=
  ad.foldl
    (fun acc p =>
      p.2.foldl
        (fun (acc2 : List (Span × List Char) × EntityTracker) e =>
          let rp :=
            if use_pseudonyms && has_semantic then
              get_replacement acc2.2 p.1 e.1 (some e.2)
            else (markerE p.1 e.2, acc2.2)
          let m := (findOccs text e.1).foldl
            (fun mm sp =>
              let r := scanOv strictOv (mm.map Prod.fst) sp
              let kept := mm.filter (fun q => decide (q.1 ∉ r.2))
              if r.1 then kept else kept ++ [(sp, rp.1)])
            acc2.1
          (m, rp.2))
        acc)
    ([], tr)

/-- Descending lexicographic comparison of spans
(`sorted(span_to_replacement.keys(), reverse=True)`). -/
def spanGt (a b : Span) : Bool :=
  decide (b.1 < a.1) || (decide (a.1 = b.1) && decide (b.2 < a.2))

def insSpanDesc (x : Span) : List Span → List Span
  | [] => [x]
  | y :: ys => if spanGt x y then x :: y :: ys else y :: insSpanDesc x ys

def sortSpansDesc (l : List Span) : List Span := l.foldr insSpanDesc []

/-- Apply the replacements from end to beginning
(`redacted_text[start:end] = list(replacement)` over the sorted spans). -/
def applySpans (text : List Char) (m : List (Span × List Char)) : List Char :=
  (sortSpansDesc (m.map Prod.fst)).foldl
    (fun res sp => res.take sp.1 ++ (lookupA m sp).getD [] ++ res.drop sp.2)
    text

/-- `RedactionEngine.redact_text`.  Engine state appears as arguments:
`sensitivity_level`, `has_nlp` (`self.use_nlp and self.nlp is not None`),
`has_semantic` (`self.semantic_engine is not None`), the instance defaults
for `use_pseudonyms` / `preserve_context`, and the semantic engine's
entity tracker `tr`.  The only raising path is the `ValueError` of
`get_categories_for_sensitivity` when `categories` is `None`. -/
def redact_text (o : DetectOracle) (tr : EntityTracker)
    (sensitivity_level : String) (has_nlp has_semantic : Bool)
    (dfl_use_pseudonyms dfl_preserve_context : Bool)
    (text : List Char) (categories : Option (List String)) (use_nlp : Bool)
    (use_pseudonyms0 preserve_context0 : Option Bool) :
    Except String ((List Char × Stats) × EntityTracker) :=
  let catsE :=
    match categories with
    | some cs => Except.ok cs
    | none => get_categories_for_sensitivity sensitivity_level
  match catsE with
  | .error e => .error e
  | .ok cats =>
    let use_pseudonyms := use_pseudonyms0.getD dfl_use_pseudonyms
    let preserve_context := preserve_context0.getD dfl_preserve_context
    let d := detectPhase o text cats use_nlp has_nlp
    if preserve_context && has_semantic then
      let r := redact_text_with_context tr text
        (d.1.map (fun p => (p.1, p.2.map (fun e => (e.1, some e.2)))))
        use_pseudonyms
      .ok ((r.1, d.2.1), r.2)
    else
      let bm := buildSpanMap text d.1 use_pseudonyms has_semantic tr
      .ok ((applySpans text bm.1, d.2.1), bm.2)

/-! ## Presidio tier (`core/presidio_engine.py`,
`PresidioRedactionEngine.redact_text`) -/

/-- `MAX_TEXT_SIZE` module constant of `core/presidio_engine.py`. -/
def MAX_TEXT_SIZE : Nat := 100000

/-- `total_stats[category] = total_stats.get(category, 0) + count`. -/
def mergeStats (a b : Stats) : Stats :=
  b.foldl (fun m p => setA m p.1 ((lookupA m p.1).getD 0 + p.2)) a

/-- `PresidioRedactionEngine.redact_text`.  `process_text` is
`self._process_text` (Presidio analyzer + anonymizer, an external
collaborator); an exception from it is `.error`.  Small texts go through
one call whose failure is caught by the outer handler, which returns the
original text with empty stats; large texts are split on `"\n\n"`, blank
paragraphs are kept verbatim, oversized paragraphs are sliced into
`MAX_TEXT_SIZE` pieces, each piece's failure keeps that piece, and the
pieces are re-joined with `"\n\n"`. -/
def presidioStep (process_text : List Char → Except Unit (List Char × Stats))
    (acc : List (List Char) × Stats) (para : List Char) :
    List (List Char) × Stats :=
  if (pstrip para).isEmpty then (acc.1 ++ [para], acc.2)
  else if decide (para.length > MAX_TEXT_SIZE) then
    (chunksOf MAX_TEXT_SIZE para).foldl
      (fun acc2 chunk =>
        match process_text chunk with
        | .ok r => (acc2.1 ++ [r.1], mergeStats acc2.2 r.2)
        | .error _ => (acc2.1 ++ [chunk], acc2.2))
      acc
  else
    match process_text para with
    | .ok r => (acc.1 ++ [r.1], mergeStats acc.2 r.2)
    | .error _ => (acc.1 ++ [para], acc.2)

def presidio_redact_text (process_text : List Char → Except Unit (List Char × Stats))
    (text : List Char) : Except String (List Char × Stats) :=
  if text.isEmpty then .error "Input text cannot be empty"
  else if decide (text.length > MAX_TEXT_SIZE) then
    let r := (splitSeq nl2 text).foldl (presidioStep process_text) ([], [])
    .ok (List.intercalate nl2 r.1, r.2)
  else
    match process_text text with
    | .ok r => .ok r
    | .error _ => .ok (text, [])

/-! ## Tier orchestrator (spec section 4.6; this component is not part of
`src/` — only the per-tier engines above are) -/

/-- Modelled from the spec: the RedactionOrchestrator state machine of
section 4.6, absent from `src/`.  Backends are tried in priority order; an
exception from a backend, or a result rejected by validation, advances to
the next tier; the first validated result is returned; when every tier
threw or failed validation the original, unmodified input text is returned
with empty stats. -/
def orchestrate (tiers : List (List Char → Except Unit (List Char × Stats)))
    (validate : List Char → List Char × Stats → Bool) (text : List Char) :
    List Char × Stats :=
  match tiers with
  | [] => (text, [])
  | t :: rest =>
    match t text with
    | .error _ => orchestrate rest validate text
    | .ok r => if validate text r then r else orchestrate rest validate text

/-- Modelled from the spec: the validation rule of section 4.6, absent
from `src/` — reject a tier result if the output is empty while the input
was non-empty, or if the input actually changed but the output contains
none of the expected category marker tokens. -/
def spec_validate (markers : List (List Char)) (input : List Char)
    (r : List Char × Stats) : Bool :=
  !(r.1.isEmpty && !input.isEmpty)
    && !(decide (r.1 ≠ input) && markers.all (fun m => !containsSub m r.1))

/-! ## Lemma library -/

theorem disjointSpan_symm {a b : Span} (h : disjointSpan a b) : disjointSpan b a :=
  h.elim Or.inr Or.inl

section AMapLemmas

variable {α : Type} {β : Type} [DecidableEq α]

@[simp] theorem lookupA_nil (k : α) : lookupA ([] : List (α × β)) k = none := rfl

theorem lookupA_setA_self (m : List (α × β)) (k : α) (v : β) :
    lookupA (setA m k v) k = some v := by
  induction m with
  | nil => simp [setA, lookupA]
  | cons p rest ih =>
    by_cases h : p.1 = k
    · simp [setA, h, lookupA]
    · simp [setA, h, lookupA, ih]

theorem lookupA_setA_ne (m : List (α × β)) (k k' : α) (v : β) (h : k' ≠ k) :
    lookupA (setA m k v) k' = lookupA m k' := by
  have hk : ¬(k = k') := fun hk => h hk.symm
  induction m with
  | nil => simp [setA, lookupA, hk]
  | cons p rest ih =>
    by_cases hp : p.1 = k
    · subst hp
      simp [setA, lookupA, hk]
    · simp [setA, hp, lookupA, ih]

theorem lookupA_append_of_some (m m' : List (α × β)) (k : α) (v : β)
    (h : lookupA m k = some v) : lookupA (m ++ m') k = some v := by
  induction m with
  | nil => simp [lookupA] at h
  | cons p rest ih =>
    by_cases hp : p.1 = k
    · simp_all [lookupA]
    · simp_all [lookupA]

theorem lookupA_append_of_none (m m' : List (α × β)) (k : α)
    (h : lookupA m k = none) : lookupA (m ++ m') k = lookupA m' k := by
  induction m with
  | nil => simp
  | cons p rest ih =>
    by_cases hp : p.1 = k
    · simp_all [lookupA]
    · simp_all [lookupA]

@[simp] theorem sumBy_nil (f : β → Nat) : sumBy f ([] : List (α × β)) = 0 := rfl

@[simp] theorem sumBy_cons (f : β → Nat) (p : α × β) (m : List (α × β)) :
    sumBy f (p :: m) = f p.2 + sumBy f m := rfl

@[simp] theorem sumBy_append (f : β → Nat) (m m' : List (α × β)) :
    sumBy f (m ++ m') = sumBy f m + sumBy f m' := by
  induction m with
  | nil => simp
  | cons p rest ih => simp [ih]; omega

theorem sumBy_setA_of_some (f : β → Nat) (m : List (α × β)) (k : α) (v w : β)
    (h : lookupA m k = some v) :
    sumBy f (setA m k w) + f v = sumBy f m + f w := by
  induction m with
  | nil => simp [lookupA] at h
  | cons p rest ih =>
    by_cases hp : p.1 = k
    · simp [lookupA, hp] at h
      subst h
      simp [setA, hp]
      omega
    · simp [lookupA, hp] at h
      have := ih h
      simp [setA, hp]
      omega

theorem sumBy_setA_of_none (f : β → Nat) (m : List (α × β)) (k : α) (w : β)
    (h : lookupA m k = none) :
    sumBy f (setA m k w) = sumBy f m + f w := by
  induction m with
  | nil => simp [setA]
  | cons p rest ih =>
    by_cases hp : p.1 = k
    · simp [lookupA, hp] at h
    · simp [lookupA, hp] at h
      simp [setA, hp, ih h]
      omega

theorem mem_mapFst_iff_lookupA (m : List (α × β)) (k : α) :
    k ∈ m.map Prod.fst ↔ lookupA m k ≠ none := by
  induction m with
  | nil => simp [lookupA]
  | cons p rest ih =>
    by_cases hp : p.1 = k
    · simp [lookupA, hp]
    · have hk : ¬(k = p.1) := fun hk => hp hk.symm
      simp [lookupA, hp, hk, ih]

theorem mapFst_setA_of_some (m : List (α × β)) (k : α) (v w : β)
    (h : lookupA m k = some v) :
    (setA m k w).map Prod.fst = m.map Prod.fst := by
  induction m with
  | nil => simp [lookupA] at h
  | cons p rest ih =>
    by_cases hp : p.1 = k
    · simp [setA, hp]
    · simp [lookupA, hp] at h
      simp [setA, hp, ih h]

theorem mapFst_setA_of_none (m : List (α × β)) (k : α) (w : β)
    (h : lookupA m k = none) :
    (setA m k w).map Prod.fst = m.map Prod.fst ++ [k] := by
  induction m with
  | nil => simp [setA]
  | cons p rest ih =>
    by_cases hp : p.1 = k
    · simp [lookupA, hp] at h
    · simp [lookupA, hp] at h
      simp [setA, hp, ih h]

end AMapLemmas

/-- Generic fold invariant helper: a property preserved by every step of a
`List.foldl` holds of the result. -/
theorem foldl_inv {α β : Type} {P : β → Prop} (f : β → α → β) (l : List α) (b : β)
    (h0 : P b) (h : ∀ b a, a ∈ l → P b → P (f b a)) : P (l.foldl f b) := by
  induction l generalizing b with
  | nil => exact h0
  | cons x xs ih =>
    exact ih (f b x) (h b x (by simp) h0) (fun b' a ha hb => h b' a (by simp [ha]) hb)

theorem scanOv_complete (ovp : Span → Span → Bool) (acc : List Span) (c : Span)
    (h : (scanOv ovp acc c).1 = false) :
    ∀ a ∈ acc, ovp c a = true → a ∈ (scanOv ovp acc c).2 := by
  induction acc with
  | nil => simp
  | cons x rest ih =>
    intro a ha hov
    by_cases hx : ovp c x
    · by_cases hlen : spanLen c ≤ spanLen x
      · simp [scanOv, hx, hlen] at h
      · simp only [scanOv, hx, hlen, if_true, if_false, ite_true, ite_false] at h ⊢
        rcases List.mem_cons.mp ha with rfl | ha'
        · simp
        · simp [ih h a ha' hov]
    · simp only [scanOv, hx] at h ⊢
      rcases List.mem_cons.mp ha with rfl | ha'
      · simp [hx] at hov
      · exact ih h a ha' hov

theorem pairwise_stepSpan (ovp : Span → Span → Bool)
    (hov : ∀ c a, ovp c a = false → disjointSpan a c)
    (acc : List Span) (c : Span) (h : acc.Pairwise disjointSpan) :
    (stepSpan ovp acc c).2.Pairwise disjointSpan := by
  have hkept : (acc.filter (fun a => decide (a ∉ (scanOv ovp acc c).2))).Pairwise
      disjointSpan := h.sublist (List.filter_sublist acc)
  have hdef : (stepSpan ovp acc c).2 =
      (if (scanOv ovp acc c).1 then acc.filter (fun a => decide (a ∉ (scanOv ovp acc c).2))
       else acc.filter (fun a => decide (a ∉ (scanOv ovp acc c).2)) ++ [c]) := rfl
  rw [hdef]
  by_cases hflag : (scanOv ovp acc c).1
  · rw [if_pos hflag]; exact hkept
  · rw [if_neg hflag]
    rw [List.pairwise_append]
    refine ⟨hkept, by simp, ?_⟩
    intro a ha b hb
    simp at hb
    rw [hb]
    rcases List.mem_filter.mp ha with ⟨hmem, hdec⟩
    by_cases hc : ovp c a = true
    · exfalso
      have := scanOv_complete ovp acc c (by simpa using hflag) a hmem hc
      simp at hdec
      exact hdec this
    · exact hov c a (by simpa using hc)

theorem pairwise_resolveWith (ovp : Span → Span → Bool)
    (hov : ∀ c a, ovp c a = false → disjointSpan a c) (cs : List Span) :
    (resolveWith ovp cs).Pairwise disjointSpan := by
  unfold resolveWith
  exact foldl_inv _ cs [] (by simp)
    (fun acc a _ hacc => pairwise_stepSpan ovp hov acc a hacc)

theorem strictOv_disjoint : ∀ c a : Span, strictOv c a = false → disjointSpan a c := by
  intro c a h
  unfold strictOv at h
  unfold disjointSpan
  simp at h
  omega

theorem closedOv_disjoint : ∀ c a : Span, closedOv c a = false → disjointSpan a c := by
  intro c a h
  unfold closedOv at h
  unfold disjointSpan
  simp at h
  omega

theorem strictOv_symm (a b : Span) : strictOv a b = strictOv b a := by
  unfold strictOv
  rw [Bool.and_comm]

theorem strictOv_closedOv {c a : Span} (h : strictOv c a = true) :
    closedOv c a = true := by
  unfold strictOv at h
  unfold closedOv
  simp at h ⊢
  omega

theorem mapFst_filterKeep (mm : List (Span × List Char)) (rm : List Span) :
    (mm.filter (fun q => decide (q.1 ∉ rm))).map Prod.fst
      = (mm.map Prod.fst).filter (fun a => decide (a ∉ rm)) := by
  induction mm with
  | nil => rfl
  | cons q rest ih =>
    simp only [List.filter_cons, List.map_cons]
    by_cases hq : q.1 ∈ rm
    · simp [hq]
      simpa only [decide_not] using ih
    · simp [hq]
      simpa only [decide_not] using ih

/-- The span component of one substitution-map step is one resolver step. -/
theorem mapFst_spanMapStep (mm : List (Span × List Char)) (sp : Span) (v : List Char) :
    ((let r := scanOv strictOv (mm.map Prod.fst) sp
      let kept := mm.filter (fun q => decide (q.1 ∉ r.2))
      if r.1 then kept else kept ++ [(sp, v)]).map Prod.fst)
      = (stepSpan strictOv (mm.map Prod.fst) sp).2 := by
  show ((if (scanOv strictOv (mm.map Prod.fst) sp).1 then
          mm.filter (fun q => decide (q.1 ∉ (scanOv strictOv (mm.map Prod.fst) sp).2))
        else mm.filter (fun q => decide (q.1 ∉ (scanOv strictOv (mm.map Prod.fst) sp).2))
          ++ [(sp, v)]).map Prod.fst)
      = (stepSpan strictOv (mm.map Prod.fst) sp).2
  by_cases hflag : (scanOv strictOv (mm.map Prod.fst) sp).1
  · simp only [hflag, if_true, stepSpan, mapFst_filterKeep]
  · simp only [hflag, if_false, Bool.false_eq_true, ite_false, stepSpan,
      List.map_append, mapFst_filterKeep, List.map_cons, List.map_nil]

/-! ## Claim theorems -/

/-- C3: Disjointness invariant.  After span resolution completes, the
accepted span set is pairwise disjoint — for every two distinct spans `a`
and `b` in the resolved set, `a.end <= b.start or b.end <= a.start` — for
every input candidate sequence.  Stated for the substitution-loop resolver,
the rule-detection-loop resolver, the span keys of the engine's
`span_to_replacement` map, and the engine's `detected_spans` list. -/
theorem c3_resolution_disjoint :
    (∀ cs : List Span, (resolveSubst cs).Pairwise disjointSpan) ∧
    (∀ cs : List Span, (resolveDetected cs).Pairwise disjointSpan) ∧
    (∀ (text : List Char) (ad : Detected) (up hs : Bool) (tr : EntityTracker),
      (((buildSpanMap text ad up hs tr).1).map Prod.fst).Pairwise disjointSpan) ∧
    (∀ (o : DetectOracle) (text : List Char) (cats : List String) (un hn : Bool),
      ((detectPhase o text cats un hn).2.2).Pairwise disjointSpan) := by
  refine ⟨fun cs => pairwise_resolveWith _ strictOv_disjoint cs,
          fun cs => pairwise_resolveWith _ closedOv_disjoint cs, ?_, ?_⟩
  · intro text ad up hs tr
    unfold buildSpanMap
    refine foldl_inv
      (P := fun acc : List (Span × List Char) × EntityTracker =>
        ((acc.1).map Prod.fst).Pairwise disjointSpan)
      _ ad ([], tr) ?_ ?_
    · simp
    intro acc p _ hacc
    refine foldl_inv
      (P := fun acc2 : List (Span × List Char) × EntityTracker =>
        ((acc2.1).map Prod.fst).Pairwise disjointSpan)
      _ p.2 acc hacc ?_
    intro acc2 e _ hacc2
    refine foldl_inv
      (P := fun mm : List (Span × List Char) =>
        ((mm).map Prod.fst).Pairwise disjointSpan)
      _ (findOccs text e.1) acc2.1 hacc2 ?_
    intro mm sp _ hmm
    rw [mapFst_spanMapStep]
    exact pairwise_stepSpan strictOv strictOv_disjoint _ sp hmm
  · intro o text cats un hn
    unfold detectPhase
    refine foldl_inv (P := fun acc : Detected × Stats × List Span =>
      (acc.2.2).Pairwise disjointSpan) _ cats _ ?_ ?_
    · simp
    intro acc cat _ hacc
    refine foldl_inv (P := fun acc2 : Detected × Stats × List Span =>
      (acc2.2.2).Pairwise disjointSpan) _ (o.rules cat) _ hacc ?_
    intro acc2 rule _ hacc2
    cases rule.2 with
    | error _ => exact hacc2
    | ok spans =>
      refine foldl_inv (P := fun acc3 : Detected × Stats × List Span =>
        (acc3.2.2).Pairwise disjointSpan) _ spans _ hacc2 ?_
      intro acc3 sp _ hacc3
      by_cases hskip : skipMatch (sliceL text sp)
      · simpa [hskip] using hacc3
      · have hstep := pairwise_stepSpan closedOv closedOv_disjoint acc3.2.2 sp hacc3
        by_cases hflag : (stepSpan closedOv acc3.2.2 sp).1
        · simpa [hskip, hflag] using hstep
        · simpa [hskip, hflag] using hstep

/-- C2 counterexample: with arrival order `(0,10)`, `(8,15)`, `(12,14)`,
the spans `(8,15)` and `(12,14)` overlap and have different lengths, yet
resolution discards the longer `(8,15)` (it was rejected by the even
longer `(0,10)`) and retains the shorter `(12,14)` — refuting the claim
that the longer of every overlapping pair is always retained. -/
theorem c2_counterexample :
    strictOv (8, 15) (12, 14) = true ∧
    spanLen (8, 15) ≠ spanLen (12, 14) ∧
    (12, 14) ∈ resolveSubst [(0, 10), (8, 15), (12, 14)] ∧
    (8, 15) ∉ resolveSubst [(0, 10), (8, 15), (12, 14)] := by decide

/-- C2 (amended): two-candidate longest-wins.  When exactly two candidates
overlap, the longer one is retained and the shorter discarded, in both
arrival orders and for both resolution loops (so regardless of which
detector produced which candidate); equal-length overlapping candidates
keep the first-accepted one. -/
theorem c2_two_candidate_longest_wins (a b : Span)
    (hov : strictOv b a = true) (hlen : spanLen b < spanLen a) :
    resolveSubst [a, b] = [a] ∧ resolveSubst [b, a] = [a] ∧
    resolveDetected [a, b] = [a] ∧ resolveDetected [b, a] = [a] ∧
    (∀ c d : Span, strictOv d c = true → spanLen d = spanLen c →
      resolveSubst [c, d] = [c] ∧ resolveDetected [c, d] = [c]) := by
  have hov' : strictOv a b = true := (strictOv_symm a b).trans hov
  have hcl : closedOv b a = true := strictOv_closedOv hov
  have hcl' : closedOv a b = true := strictOv_closedOv hov'
  have hle : spanLen b ≤ spanLen a := Nat.le_of_lt hlen
  have hnle : ¬(spanLen a ≤ spanLen b) := Nat.not_le_of_lt hlen
  refine ⟨?_, ?_, ?_, ?_, ?_⟩
  · simp [resolveSubst, resolveWith, addSpanWith, stepSpan, scanOv, hov, hle]
  · simp [resolveSubst, resolveWith, addSpanWith, stepSpan, scanOv, hov', hnle]
  · simp [resolveDetected, resolveWith, addSpanWith, stepSpan, scanOv, hcl, hle]
  · simp [resolveDetected, resolveWith, addSpanWith, stepSpan, scanOv, hcl', hnle]
  · intro c d hdc hdlen
    have hcld : closedOv d c = true := strictOv_closedOv hdc
    constructor
    · simp [resolveSubst, resolveWith, addSpanWith, stepSpan, scanOv, hdc, hdlen.le]
    · simp [resolveDetected, resolveWith, addSpanWith, stepSpan, scanOv, hcld, hdlen.le]

theorem drawDigits_entityMap (n : Nat) (tr : EntityTracker) :
    (drawDigits n tr).2.entity_map = tr.entity_map := by
  induction n generalizing tr with
  | zero => rfl
  | succ n ih => simp only [drawDigits, draw]; exact ih _

theorem generate_person_name_entityMap (tr : EntityTracker) :
    (generate_person_name tr).2.entity_map = tr.entity_map := by
  simp only [generate_person_name]
  split <;> rfl

theorem generate_location_name_entityMap (tr : EntityTracker) :
    (generate_location_name tr).2.entity_map = tr.entity_map := by
  simp only [generate_location_name]
  repeat' split
  all_goals rfl

theorem generate_organization_name_entityMap (tr : EntityTracker) :
    (generate_organization_name tr).2.entity_map = tr.entity_map := by
  simp only [generate_organization_name]
  repeat' split
  all_goals rfl

theorem generate_replacement_entityMap (tr : EntityTracker) (c : String)
    (e : List Char) (ty : Option String) :
    (generate_replacement tr c e ty).2.entity_map = tr.entity_map := by
  unfold generate_replacement
  split
  · exact generate_person_name_entityMap tr
  split
  · exact generate_location_name_entityMap tr
  split
  · exact generate_organization_name_entityMap tr
  split
  · rfl
  split
  · exact drawDigits_entityMap 8 tr
  split
  · rfl
  split
  · rfl
  split
  · rfl
  split
  · rfl
  · rfl

/-- After a `get_replacement` call, the returned replacement is stored
under `(category, entity_text)` in the tracker's entity map. -/
theorem get_replacement_stores (tr : EntityTracker) (c : String) (e : List Char)
    (ty : Option String) :
    lookupA ((lookupA (get_replacement tr c e ty).2.entity_map c).getD []) e
      = some (get_replacement tr c e ty).1 := by
  unfold get_replacement
  cases h0 : lookupA tr.entity_map c with
  | some inner =>
    simp only [h0, Option.isNone_some, Bool.false_eq_true, if_false, ite_false,
      Option.getD_some]
    cases h1 : lookupA inner e with
    | some r => simp [h0, h1]
    | none =>
      simp only [h1]
      have hg := generate_replacement_entityMap tr c e ty
      simp only [hg, h0, Option.getD_some, lookupA_setA_self, Option.getD_some]
  | none =>
    simp only [h0, Option.isNone_none, if_true, ite_true]
    have happ : lookupA (tr.entity_map ++ [(c, [])]) c
        = some ([] : List (List Char × List Char)) := by
      rw [lookupA_append_of_none _ _ _ h0]
      simp [lookupA]
    simp only [happ, Option.getD_some, lookupA_nil]
    have hg := generate_replacement_entityMap
      { tr with entity_map := tr.entity_map ++ [(c, [])] } c e ty
    simp only [hg, happ, Option.getD_some, lookupA_setA_self]

/-- A `get_replacement` call for any pair never changes an entry already
stored for `(c, e)`. -/
theorem get_replacement_preserves (tr : EntityTracker) (c : String) (e : List Char)
    (r : List Char) (c' : String) (e' : List Char) (ty' : Option String)
    (h : lookupA ((lookupA tr.entity_map c).getD []) e = some r) :
    lookupA ((lookupA (get_replacement tr c' e' ty').2.entity_map c).getD []) e
      = some r := by
  obtain ⟨inner, hin⟩ : ∃ inner, lookupA tr.entity_map c = some inner := by
    cases hc : lookupA tr.entity_map c with
    | some i => exact ⟨i, rfl⟩
    | none => simp [hc] at h
  rw [hin, Option.getD_some] at h
  unfold get_replacement
  cases h0 : lookupA tr.entity_map c' with
  | some inner' =>
    simp only [h0, Option.isNone_some, Bool.false_eq_true, if_false, ite_false,
      Option.getD_some]
    cases h1 : lookupA inner' e' with
    | some r' => simp [hin, h]
    | none =>
      simp only [h1]
      have hg := generate_replacement_entityMap tr c' e' ty'
      simp only [hg, h0, Option.getD_some]
      by_cases hcc : c' = c
      · subst hcc
        rw [hin] at h0
        cases h0
        have hee : e ≠ e' := fun he => by
          subst he
          rw [h] at h1
          cases h1
        rw [lookupA_setA_self, Option.getD_some, lookupA_setA_ne inner e' e _ hee, h]
      · rw [lookupA_setA_ne _ _ _ _ (fun hx => hcc hx.symm), hin, Option.getD_some, h]
  | none =>
    have hcc : c' ≠ c := fun hx => by
      subst hx
      rw [hin] at h0
      cases h0
    simp only [h0, Option.isNone_none, if_true, ite_true]
    have happ : lookupA (tr.entity_map ++ [(c', [])]) c'
        = some ([] : List (List Char × List Char)) := by
      rw [lookupA_append_of_none _ _ _ h0]
      simp [lookupA]
    have happc : lookupA (tr.entity_map ++ [(c', [])]) c = some inner :=
      lookupA_append_of_some _ _ _ _ hin
    simp only [happ, Option.getD_some, lookupA_nil]
    have hg := generate_replacement_entityMap
      { tr with entity_map := tr.entity_map ++ [(c', [])] } c' e' ty'
    simp only [hg, happ, Option.getD_some]
    rw [lookupA_setA_ne _ c' c _ (fun hx => hcc hx.symm), happc, Option.getD_some, h]

/-- A call whose pair is already stored returns the stored replacement. -/
theorem get_replacement_hit (tr : EntityTracker) (c : String) (e : List Char)
    (r : List Char) (ty : Option String)
    (h : lookupA ((lookupA tr.entity_map c).getD []) e = some r) :
    (get_replacement tr c e ty).1 = r := by
  obtain ⟨inner, hin⟩ : ∃ inner, lookupA tr.entity_map c = some inner := by
    cases hc : lookupA tr.entity_map c with
    | some i => exact ⟨i, rfl⟩
    | none => simp [hc] at h
  rw [hin, Option.getD_some] at h
  unfold get_replacement
  simp [hin, h]

/-- C4: Replacement consistency.  Within one tracker session, every call
to `EntityTracker.get_replacement` with the same `(category, entity_text)`
pair returns the identical replacement string: after a first call, any
sequence of further calls (for arbitrary pairs) followed by a repeat call
for the same pair — even with a different entity type — yields the first
call's replacement. -/
theorem c4_replacement_consistency (tr : EntityTracker) (category : String)
    (entity_text : List Char) (ty ty2 : Option String)
    (calls : List (String × List Char × Option String)) :
    (get_replacement (runCalls (get_replacement tr category entity_text ty).2 calls)
        category entity_text ty2).1
      = (get_replacement tr category entity_text ty).1 := by
  have hstored :
      lookupA ((lookupA (runCalls (get_replacement tr category entity_text ty).2
          calls).entity_map category).getD []) entity_text
        = some (get_replacement tr category entity_text ty).1 := by
    unfold runCalls
    refine foldl_inv (P := fun s : EntityTracker =>
        lookupA ((lookupA s.entity_map category).getD []) entity_text
          = some (get_replacement tr category entity_text ty).1)
      _ calls _ ?_ ?_
    · exact get_replacement_stores tr category entity_text ty
    · intro s a _ hs
      exact get_replacement_preserves s category entity_text _ a.1 a.2.1 a.2.2 hs
  exact get_replacement_hit _ category entity_text _ ty2 hstored

theorem sens_mem_of_contains {s : String}
    (h : (["low", "medium", "high"].contains s) = true) :
    s = "low" ∨ s = "medium" ∨ s = "high" := by
  obtain ⟨x, hx, hbeq⟩ := List.contains_iff_exists_mem_beq.mp h
  have hsx : s = x := by simpa using hbeq
  subst hsx
  simpa using hx

/-- C9: Sensitivity validation.  `set_sensitivity` fails with the
invalid-sensitivity-level `ValueError` for every level outside
low/medium/high, and succeeds — updating the stored level — for every
level inside; `get_categories_for_sensitivity` likewise raises exactly
outside that set. -/
theorem c9_sensitivity_validation (level : String) :
    ((["low", "medium", "high"].contains level) = true →
      set_sensitivity level = .ok level ∧
      ∃ cs, get_categories_for_sensitivity level = .ok cs) ∧
    ((["low", "medium", "high"].contains level) = false →
      set_sensitivity level
          = .error "Sensitivity level must be low, medium, or high" ∧
      get_categories_for_sensitivity level
          = .error ("Invalid sensitivity level: " ++ level)) := by
  constructor
  · intro h
    rcases sens_mem_of_contains h with rfl | rfl | rfl <;>
      exact ⟨rfl, ⟨_, rfl⟩⟩
  · intro h
    have hne : ¬(level = "low" ∨ level = "medium" ∨ level = "high") := by
      intro hmem
      have : (["low", "medium", "high"].contains level) = true := by
        rcases hmem with rfl | rfl | rfl <;> decide
      rw [this] at h
      cases h
    push_neg at hne
    obtain ⟨h1, h2, h3⟩ := hne
    constructor
    · rw [set_sensitivity, if_neg (by simp [h1, h2, h3])]
    · rw [get_categories_for_sensitivity]
      have : lookupA sensitivity_mapping level = none := by
        simp [sensitivity_mapping, lookupA, Ne.symm h1, Ne.symm h2, Ne.symm h3]
      rw [this]

/-- C9 witness: the validation theorem at the invalid level `"extreme"`
(spec scenario E) and the valid level `"low"`. -/
theorem c9_witness :
    set_sensitivity "extreme"
        = .error "Sensitivity level must be low, medium, or high" ∧
    get_categories_for_sensitivity "extreme"
        = .error ("Invalid sensitivity level: " ++ "extreme") ∧
    set_sensitivity "low" = .ok "low" :=
  ⟨((c9_sensitivity_validation "extreme").2 (by decide)).1,
   ((c9_sensitivity_validation "extreme").2 (by decide)).2,
   ((c9_sensitivity_validation "low").1 (by decide)).1⟩

/-- C6: No internal failure raises out of redact.  The rule-based
`RedactionEngine.redact_text` returns a result for every oracle outcome —
including a throwing NLP collaborator and throwing rules — whenever the
caller input is well-formed (an explicit category list, or a valid stored
sensitivity level when `categories` is `None`); and
`PresidioRedactionEngine.redact_text` raises only for empty caller input,
containing every processing failure. -/
theorem c6_no_internal_raise :
    (∀ (o : DetectOracle) (tr : EntityTracker) (sens : String)
       (hn hs dup dpc : Bool) (text : List Char) (cats : Option (List String))
       (un : Bool) (up0 pc0 : Option Bool),
      (cats ≠ none ∨ (["low", "medium", "high"].contains sens) = true) →
      ∃ v, redact_text o tr sens hn hs dup dpc text cats un up0 pc0
        = Except.ok v) ∧
    (∀ (proc : List Char → Except Unit (List Char × Stats)) (text : List Char),
      text ≠ [] → ∃ v, presidio_redact_text proc text = Except.ok v) := by
  constructor
  · intro o tr sens hn hs dup dpc text cats un up0 pc0 hvalid
    obtain ⟨cs, hcs⟩ :
        ∃ cs, (match cats with
               | some cs => Except.ok cs
               | none => get_categories_for_sensitivity sens)
          = Except.ok (ε := String) cs := by
      cases cats with
      | some cs => exact ⟨cs, rfl⟩
      | none =>
        rcases hvalid with hc | hc
        · exact absurd rfl hc
        · rcases sens_mem_of_contains hc with rfl | rfl | rfl <;> exact ⟨_, rfl⟩
    unfold redact_text
    simp only [hcs]
    split
    · exact ⟨_, rfl⟩
    · exact ⟨_, rfl⟩
  · intro proc text htext
    unfold presidio_redact_text
    rw [if_neg (by simpa using htext)]
    split
    · exact ⟨_, rfl⟩
    · split
      · exact ⟨_, rfl⟩
      · exact ⟨_, rfl⟩

/-- C6 witness: a throwing NLP backend and a throwing rule are contained
by the engine, and a throwing Presidio processor is contained for
non-empty input. -/
theorem c6_witness :
    (∃ v, redact_text ⟨Except.error (), fun _ => [("BAD", Except.error ())]⟩
        (EntityTracker.init fun _ => 0) "medium" true false false false
        "abc".data (some ["PII"]) true none none = Except.ok v) ∧
    (∃ v, presidio_redact_text (fun _ => Except.error ()) "abc".data
        = Except.ok v) :=
  ⟨c6_no_internal_raise.1 _ _ _ _ _ _ _ _ _ _ _ _ (Or.inl (by simp)),
   c6_no_internal_raise.2 _ _ (by simp)⟩

theorem mem_setA {α β : Type} [DecidableEq α] (m : List (α × β)) (k : α) (v : β) :
    ∀ p ∈ setA m k v, p ∈ m ∨ p = (k, v) := by
  induction m with
  | nil => simp [setA]
  | cons q rest ih =>
    intro p hp
    by_cases hq : q.1 = k
    · simp only [setA, hq, if_true, ite_true] at hp
      rcases List.mem_cons.mp hp with rfl | hp'
      · exact Or.inr rfl
      · exact Or.inl (List.mem_cons_of_mem _ hp')
    · simp only [setA, hq, if_false, Bool.false_eq_true, ite_false] at hp
      rcases List.mem_cons.mp hp with rfl | hp'
      · exact Or.inl (List.mem_cons_self _ _)
      · rcases ih p hp' with h | h
        · exact Or.inl (List.mem_cons_of_mem _ h)
        · exact Or.inr h

theorem sumBy_eq_zero {α β : Type} [DecidableEq α] (f : β → Nat)
    (m : List (α × β)) (h : ∀ p ∈ m, f p.2 = 0) : sumBy f m = 0 := by
  induction m with
  | nil => rfl
  | cons p rest ih =>
    rw [sumBy_cons, h p (List.mem_cons_self _ _), ih (fun q hq => h q (List.mem_cons_of_mem _ hq))]

theorem sumId_statsInit (cats : List String) :
    sumBy (fun n => n) (statsInit cats) = 0 := by
  unfold statsInit
  refine sumBy_eq_zero _ _ ?_
  have : ∀ p ∈ cats.foldl (fun m c => setA m c 0) [], p.2 = 0 := by
    refine foldl_inv (P := fun m : Stats => ∀ p ∈ m, p.2 = 0) _ cats [] (by simp) ?_
    intro m c _ hm p hp
    rcases mem_setA m c 0 p hp with h | h
    · exact hm p h
    · rw [h]
  exact this

theorem sumId_incrStat (st : Stats) (c : String) :
    sumBy (fun n => n) (incrStat st c) = sumBy (fun n => n) st + 1 := by
  unfold incrStat
  cases h : lookupA st c with
  | some v =>
    have h2 : sumBy (fun n => n) (setA st c (v + 1)) + v
        = sumBy (fun n => n) st + (v + 1) := sumBy_setA_of_some (fun n => n) st c v (v + 1) h
    simp only [Option.getD_some]
    omega
  | none =>
    simp only [Option.getD_none]
    exact sumBy_setA_of_none _ _ _ _ h

theorem sumLen_appendEntity (ad : Detected) (c : String) (e : List Char × String) :
    sumBy List.length (appendEntity ad c e) = sumBy List.length ad + 1 := by
  unfold appendEntity
  cases h : lookupA ad c with
  | some l =>
    have h2 : sumBy List.length (setA ad c (l ++ [e])) + l.length
        = sumBy List.length ad + (l ++ [e]).length :=
      sumBy_setA_of_some List.length ad c l (l ++ [e]) h
    simp only [Option.getD_some]
    simp only [List.length_append, List.length_cons, List.length_nil] at h2
    omega
  | none =>
    simp only [Option.getD_none, List.nil_append]
    have h2 : sumBy List.length (setA ad c [e])
        = sumBy List.length ad + [e].length := sumBy_setA_of_none _ _ _ _ h
    simpa using h2

theorem sumLen_ensureKey (ad : Detected) (c : String) :
    sumBy List.length (ensureKey ad c) = sumBy List.length ad := by
  unfold ensureKey
  split
  · simp
  · rfl

/-- C5 (amended): the stats sum counts detection-time acceptances.  For
every oracle, text and category list, the sum of the returned statistics
equals the total number of entries collected into
`all_detected_entities` — NLP entities plus rule matches accepted by the
detection-time overlap check (with no decrement when a span is later
evicted) — which is what the substitution phase then expands into one
replacement per textual occurrence. -/
theorem c5_stats_count_detected_entities (o : DetectOracle) (text : List Char)
    (cats : List String) (un hn : Bool) :
    sumBy (fun n => n) ((detectPhase o text cats un hn).2.1)
      = sumBy List.length ((detectPhase o text cats un hn).1) := by
  unfold detectPhase
  refine foldl_inv (P := fun acc : Detected × Stats × List Span =>
      sumBy (fun n => n) acc.2.1 = sumBy List.length acc.1) _ cats _ ?_ ?_
  · show sumBy (fun n => n)
        (if un && hn then
          match o.nlp with
          | .error _ => (([] : Detected), statsInit cats)
          | .ok ents =>
            (ents.filter (fun p => cats.contains p.1)).foldl
              (fun acc p =>
                let ad := ensureKey acc.1 p.1
                p.2.foldl
                  (fun acc2 e =>
                    if skipMatch e.1 then acc2
                    else (appendEntity acc2.1 p.1 e, incrStat acc2.2 p.1))
                  (ad, acc.2))
              ([], statsInit cats)
        else (([] : Detected), statsInit cats)).2
      = sumBy List.length
        (if un && hn then
          match o.nlp with
          | .error _ => (([] : Detected), statsInit cats)
          | .ok ents =>
            (ents.filter (fun p => cats.contains p.1)).foldl
              (fun acc p =>
                let ad := ensureKey acc.1 p.1
                p.2.foldl
                  (fun acc2 e =>
                    if skipMatch e.1 then acc2
                    else (appendEntity acc2.1 p.1 e, incrStat acc2.2 p.1))
                  (ad, acc.2))
              ([], statsInit cats)
        else (([] : Detected), statsInit cats)).1
    split
    · split
      · simp [sumId_statsInit]
      · refine foldl_inv (P := fun acc : Detected × Stats =>
            sumBy (fun n => n) acc.2 = sumBy List.length acc.1) _ _ _ ?_ ?_
        · simp [sumId_statsInit]
        · intro acc p _ hacc
          refine foldl_inv (P := fun acc2 : Detected × Stats =>
              sumBy (fun n => n) acc2.2 = sumBy List.length acc2.1) _ _ _ ?_ ?_
          · simpa [sumLen_ensureKey] using hacc
          · intro acc2 e _ hacc2
            by_cases hsk : skipMatch e.1
            · simpa [hsk] using hacc2
            · simp only [hsk, Bool.false_eq_true, if_false, ite_false]
              rw [sumId_incrStat, sumLen_appendEntity, hacc2]
    · simp [sumId_statsInit]
  · intro acc cat _ hacc
    refine foldl_inv (P := fun acc2 : Detected × Stats × List Span =>
        sumBy (fun n => n) acc2.2.1 = sumBy List.length acc2.1) _ (o.rules cat) _ ?_ ?_
    · simpa [sumLen_ensureKey] using hacc
    · intro acc2 rule _ hacc2
      cases rule.2 with
      | error _ => exact hacc2
      | ok spans =>
        refine foldl_inv (P := fun acc3 : Detected × Stats × List Span =>
            sumBy (fun n => n) acc3.2.1 = sumBy List.length acc3.1) _ spans _ hacc2 ?_
        intro acc3 sp _ hacc3
        by_cases hsk : skipMatch (sliceL text sp)
        · simpa [hsk] using hacc3
        · by_cases hflag : (stepSpan closedOv acc3.2.2 sp).1
          · simpa [hsk, hflag] using hacc3
          · simp only [hsk, hflag, Bool.false_eq_true, if_false, ite_false]
            rw [sumId_incrStat, sumLen_appendEntity, hacc3]

/-- C5 counterexample: a single rule match `"ab"` at `(0,2)` in the text
`"abab"` yields stats summing to 1, but the substitution phase re-finds
every occurrence of the detected text and substitutes two spans, so the
output contains two markers — `sum(stats.values())` does not equal the
number of resolved spans actually substituted. -/
theorem c5_counterexample :
    (let o : DetectOracle :=
      ⟨Except.ok [], fun c => if c = "PII" then [("R", Except.ok [(0, 2)])] else []⟩
     let d := detectPhase o "abab".data ["PII"] false false
     let bm := buildSpanMap "abab".data d.1 false false (EntityTracker.init fun _ => 0)
     sumBy (fun n => n) d.2.1 = 1 ∧ bm.1.length = 2 ∧
       applySpans "abab".data bm.1 = "[PII:R][PII:R]".data) :=
  ⟨rfl, rfl, rfl⟩

theorem mem_of_containsStr {l : List String} {s : String}
    (h : l.contains s = true) : s ∈ l := by
  obtain ⟨x, hx, hb⟩ := List.contains_iff_exists_mem_beq.mp h
  have hsx : s = x := by simpa using hb
  subst hsx
  exact hx

theorem statsInit_lookupAux (cats : List String) (m : Stats) (c : String) :
    lookupA (cats.foldl (fun m c => setA m c 0) m) c
      = if c ∈ cats then some 0 else lookupA m c := by
  induction cats generalizing m with
  | nil => simp
  | cons x xs ih =>
    rw [List.foldl_cons, ih]
    by_cases hc : c ∈ xs
    · simp [hc]
    · by_cases hcx : c = x
      · subst hcx
        simp [hc, lookupA_setA_self]
      · simp [hc, hcx, lookupA_setA_ne m x c 0 hcx]

theorem statsInit_lookup (cats : List String) (c : String) :
    lookupA (statsInit cats) c = if c ∈ cats then some 0 else none := by
  unfold statsInit
  rw [statsInit_lookupAux]
  rfl

theorem nodup_keys_statsInit (cats : List String) :
    ((statsInit cats).map Prod.fst).Nodup := by
  unfold statsInit
  refine foldl_inv (P := fun m : Stats => (m.map Prod.fst).Nodup) _ cats [] (by simp) ?_
  intro m c _ hm
  cases hv : lookupA m c with
  | some v => rw [mapFst_setA_of_some m c v 0 hv]; exact hm
  | none =>
    rw [mapFst_setA_of_none m c 0 hv]
    have hnm : c ∉ m.map Prod.fst := by
      rw [mem_mapFst_iff_lookupA, hv]
      simp
    simp [List.nodup_append, hm, hnm]

theorem mapFst_incrStat (st : Stats) (c : String) (h : lookupA st c ≠ none) :
    (incrStat st c).map Prod.fst = st.map Prod.fst := by
  unfold incrStat
  cases hv : lookupA st c with
  | none => exact absurd hv h
  | some v =>
    simp only [Option.getD_some]
    exact mapFst_setA_of_some st c v _ hv

/-- The stats key list never changes after initialisation: every increment
targets a key of `statsInit cats`. -/
theorem detectPhase_stats_keys (o : DetectOracle) (text : List Char)
    (cats : List String) (un hn : Bool) :
    ((detectPhase o text cats un hn).2.1).map Prod.fst
      = (statsInit cats).map Prod.fst := by
  have hincr : ∀ (st : Stats) (c : String),
      st.map Prod.fst = (statsInit cats).map Prod.fst → c ∈ cats →
      (incrStat st c).map Prod.fst = (statsInit cats).map Prod.fst := by
    intro st c hkeys hc
    rw [mapFst_incrStat st c, hkeys]
    rw [← mem_mapFst_iff_lookupA, hkeys, mem_mapFst_iff_lookupA, statsInit_lookup]
    simp [hc]
  unfold detectPhase
  refine foldl_inv (P := fun acc : Detected × Stats × List Span =>
      (acc.2.1).map Prod.fst = (statsInit cats).map Prod.fst) _ cats _ ?_ ?_
  · show ((if un && hn then
          match o.nlp with
          | .error _ => (([] : Detected), statsInit cats)
          | .ok ents =>
            (ents.filter (fun p => cats.contains p.1)).foldl
              (fun acc p =>
                let ad := ensureKey acc.1 p.1
                p.2.foldl
                  (fun acc2 e =>
                    if skipMatch e.1 then acc2
                    else (appendEntity acc2.1 p.1 e, incrStat acc2.2 p.1))
                  (ad, acc.2))
              ([], statsInit cats)
        else (([] : Detected), statsInit cats)).2).map Prod.fst
      = (statsInit cats).map Prod.fst
    split
    · split
      · rfl
      · rename_i ents _
        refine foldl_inv (P := fun acc : Detected × Stats =>
            (acc.2).map Prod.fst = (statsInit cats).map Prod.fst) _ _ _ rfl ?_
        intro acc p hp hacc
        have hpc : p.1 ∈ cats :=
          mem_of_containsStr (List.mem_filter.mp hp).2
        refine foldl_inv (P := fun acc2 : Detected × Stats =>
            (acc2.2).map Prod.fst = (statsInit cats).map Prod.fst) _ _ _ hacc ?_
        intro acc2 e _ hacc2
        by_cases hsk : skipMatch e.1
        · simpa [hsk] using hacc2
        · simp only [hsk, Bool.false_eq_true, if_false, ite_false]
          exact hincr _ _ hacc2 hpc
    · rfl
  · intro acc cat hcat hacc
    refine foldl_inv (P := fun acc2 : Detected × Stats × List Span =>
        (acc2.2.1).map Prod.fst = (statsInit cats).map Prod.fst) _ (o.rules cat) _ hacc ?_
    intro acc2 rule _ hacc2
    cases rule.2 with
    | error _ => exact hacc2
    | ok spans =>
      refine foldl_inv (P := fun acc3 : Detected × Stats × List Span =>
          (acc3.2.1).map Prod.fst = (statsInit cats).map Prod.fst) _ spans _ hacc2 ?_
      intro acc3 sp _ hacc3
      by_cases hsk : skipMatch (sliceL text sp)
      · simpa [hsk] using hacc3
      · by_cases hflag : (stepSpan closedOv acc3.2.2 sp).1
        · simpa [hsk, hflag] using hacc3
        · simp only [hsk, hflag, Bool.false_eq_true, if_false, ite_false]
          exact hincr _ _ hacc3 hcat

/-- C10 (amended): stats key set.  For every successful call, the returned
statistics dictionary has exactly one key per applied category (the
explicit list, or the sensitivity-derived list for `categories=None`), a
category with no detections appearing with count 0 rather than being
absent; provided the applied category list is non-empty, the returned
dictionary is non-empty (an explicitly passed empty category list yields
the empty dictionary). -/
theorem c10_stats_key_set (o : DetectOracle) (tr : EntityTracker)
    (sens : String) (hn hs dup dpc : Bool) (text : List Char)
    (cats : Option (List String)) (un : Bool) (up0 pc0 : Option Bool)
    (out : (List Char × Stats) × EntityTracker) (cs' : List String)
    (h : redact_text o tr sens hn hs dup dpc text cats un up0 pc0 = Except.ok out)
    (hcs : cats = some cs' ∨
      (cats = none ∧ get_categories_for_sensitivity sens = .ok cs')) :
    (out.1.2.map Prod.fst).Nodup ∧
    (∀ c, c ∈ out.1.2.map Prod.fst ↔ c ∈ cs') ∧
    (cs' ≠ [] → out.1.2 ≠ []) := by
  have hstats : out.1.2 = (detectPhase o text cs' un hn).2.1 := by
    rcases hcs with rfl | ⟨rfl, hok⟩
    · simp only [redact_text] at h
      by_cases hb : (pc0.getD dpc && hs) = true
      · rw [if_pos hb] at h
        cases h
        rfl
      · rw [if_neg hb] at h
        cases h
        rfl
    · simp only [redact_text, hok] at h
      by_cases hb : (pc0.getD dpc && hs) = true
      · rw [if_pos hb] at h
        cases h
        rfl
      · rw [if_neg hb] at h
        cases h
        rfl
  rw [hstats]
  have hkeys := detectPhase_stats_keys o text cs' un hn
  refine ⟨?_, ?_, ?_⟩
  · rw [hkeys]
    exact nodup_keys_statsInit cs'
  · intro c
    rw [hkeys, mem_mapFst_iff_lookupA, statsInit_lookup]
    by_cases hc : c ∈ cs' <;> simp [hc]
  · intro hne hemp
    obtain ⟨c, hc⟩ := List.exists_mem_of_ne_nil cs' hne
    have hmem : c ∈ ((detectPhase o text cs' un hn).2.1).map Prod.fst := by
      rw [hkeys, mem_mapFst_iff_lookupA, statsInit_lookup]
      simp [hc]
    rw [hemp] at hmem
    simp at hmem

/-- C10 counterexample: calling `redact_text` with the explicit category
list `[]` on non-empty input succeeds with no matches and returns the
empty statistics dictionary, so a successful no-match run can return
`{}`. -/
theorem c10_counterexample :
    ∃ tr', redact_text ⟨Except.ok [], fun _ => []⟩ (EntityTracker.init fun _ => 0)
      "medium" false false false false "ab".data (some []) false none none
      = Except.ok (("ab".data, []), tr') :=
  ⟨_, rfl⟩

/-- C10 witness: the amended theorem at a concrete run with the applied
category list `["PII"]` and no matches — the stats are exactly
`[("PII", 0)]`. -/
theorem c10_witness :
    (([("PII", 0)] : Stats).map Prod.fst).Nodup ∧
    (∀ c, c ∈ ([("PII", 0)] : Stats).map Prod.fst ↔ c ∈ ["PII"]) ∧
    ((["PII"] : List String) ≠ [] → ([("PII", 0)] : Stats) ≠ []) :=
  c10_stats_key_set ⟨Except.ok [], fun _ => []⟩ (EntityTracker.init fun _ => 0)
    "medium" false false false false "ab".data (some ["PII"]) false none none
    (("ab".data, [("PII", 0)]), EntityTracker.init fun _ => 0) ["PII"]
    rfl (Or.inl rfl)

/-- C1: Anti-data-loss on total failure.  For every input text: when every
tier of the (spec-modelled) orchestrator throws or fails validation, the
orchestrator returns the original input text with empty statistics; and
the Presidio tier of the source likewise returns `(text, {})` when its
processing throws on a (non-empty, unchunked) input. -/
theorem c1_anti_data_loss :
    (∀ (tiers : List (List Char → Except Unit (List Char × Stats)))
       (validate : List Char → List Char × Stats → Bool) (text : List Char),
      (∀ t ∈ tiers, ∀ r, t text = .ok r → validate text r = false) →
      orchestrate tiers validate text = (text, [])) ∧
    (∀ (proc : List Char → Except Unit (List Char × Stats)) (text : List Char),
      text ≠ [] → text.length ≤ MAX_TEXT_SIZE → proc text = .error () →
      presidio_redact_text proc text = Except.ok (text, [])) := by
  constructor
  · intro tiers validate text
    induction tiers with
    | nil => intro _; rfl
    | cons t rest ih =>
      intro hfail
      unfold orchestrate
      cases ht : t text with
      | error e =>
        exact ih (fun t' ht' r hr => hfail t' (List.mem_cons_of_mem _ ht') r hr)
      | ok r =>
        have hv := hfail t (List.mem_cons_self _ _) r ht
        simp only [hv, Bool.false_eq_true, if_false, ite_false]
        exact ih (fun t' ht' r' hr' => hfail t' (List.mem_cons_of_mem _ ht') r' hr')
  · intro proc text hne hlen hproc
    unfold presidio_redact_text
    rw [if_neg (by simpa using hne)]
    rw [if_neg (by simp only [decide_eq_true_eq]; omega)]
    rw [hproc]

/-- C1 witness: one always-throwing tier, and a throwing Presidio
processor on the non-empty input `"abc"`. -/
theorem c1_witness :
    orchestrate [fun _ => Except.error ()] (fun _ _ => true) "abc".data
      = ("abc".data, []) ∧
    presidio_redact_text (fun _ => Except.error ()) "abc".data
      = Except.ok ("abc".data, []) :=
  ⟨c1_anti_data_loss.1 _ _ _ (by
      intro t ht r hr
      simp only [List.mem_singleton] at ht
      subst ht
      cases hr),
   c1_anti_data_loss.2 _ _ (by decide) (by decide) rfl⟩

/-- C8: Non-pseudonym marker format.  With pseudonymization disabled,
every replacement value entered into the engine's `span_to_replacement`
map is exactly the deterministic marker `"[category:entity_type]"` of a
detected entity; and the semantic engine's marker substitutes `UNKNOWN`
when no entity type is known, flowing into the substituted output. -/
theorem c8_nonpseudonym_marker :
    (∀ (text : List Char) (ad : Detected) (hs : Bool) (tr : EntityTracker),
      ∀ q ∈ (buildSpanMap text ad false hs tr).1,
        ∃ cat lst etext etyp, (cat, lst) ∈ ad ∧ (etext, etyp) ∈ lst ∧
          q.2 = markerE cat etyp) ∧
    (∀ (tr : EntityTracker) (text : List Char) (cat : String) (etext : List Char),
      3 < etext.length →
      redact_text_with_context tr text [(cat, [(etext, none)])] false
        = (replaceAll text etext (markerE cat "UNKNOWN"), tr)) := by
  constructor
  · intro text ad hs tr
    unfold buildSpanMap
    refine foldl_inv (P := fun acc : List (Span × List Char) × EntityTracker =>
        ∀ q ∈ acc.1, ∃ cat lst etext etyp, (cat, lst) ∈ ad ∧ (etext, etyp) ∈ lst ∧
          q.2 = markerE cat etyp) _ ad ([], tr) ?_ ?_
    · simp
    intro acc p hpmem hacc
    refine foldl_inv (P := fun acc2 : List (Span × List Char) × EntityTracker =>
        ∀ q ∈ acc2.1, ∃ cat lst etext etyp, (cat, lst) ∈ ad ∧ (etext, etyp) ∈ lst ∧
          q.2 = markerE cat etyp) _ p.2 acc hacc ?_
    intro acc2 e hemem hacc2
    show ∀ q ∈ ((findOccs text e.1).foldl
        (fun mm sp =>
          let r := scanOv strictOv (mm.map Prod.fst) sp
          let kept := mm.filter (fun q => decide (q.1 ∉ r.2))
          if r.1 then kept else kept ++ [(sp, markerE p.1 e.2)]) acc2.1),
      ∃ cat lst etext etyp, (cat, lst) ∈ ad ∧ (etext, etyp) ∈ lst ∧
        q.2 = markerE cat etyp
    refine foldl_inv (P := fun mm : List (Span × List Char) =>
        ∀ q ∈ mm, ∃ cat lst etext etyp, (cat, lst) ∈ ad ∧ (etext, etyp) ∈ lst ∧
          q.2 = markerE cat etyp) _ (findOccs text e.1) acc2.1 hacc2 ?_
    intro mm sp _ hmm q hq
    by_cases hflag : (scanOv strictOv (mm.map Prod.fst) sp).1
    · rw [if_pos hflag] at hq
      exact hmm q (List.mem_filter.mp hq).1
    · rw [if_neg hflag] at hq
      rcases List.mem_append.mp hq with hq' | hq'
      · exact hmm q (List.mem_filter.mp hq').1
      · have hq2 : q = (sp, markerE p.1 e.2) := by simpa using hq'
        subst hq2
        exact ⟨p.1, p.2, e.1, e.2, by simpa using hpmem, by simpa using hemem, rfl⟩
  · intro tr text cat etext hlen
    have hne : etext.isEmpty = false := by
      cases etext
      · simp at hlen
      · rfl
    unfold redact_text_with_context
    simp only [List.foldl_cons, List.foldl_nil, List.map_cons, List.map_nil,
      List.nil_append, sortByLenDesc, insByLen, hne, Bool.false_eq_true, if_false,
      ite_false]
    rw [replace_with_context, if_neg (by omega)]
    rfl

/-- C8 witness: the theorem at a concrete detected-entity table — the one
span-map entry carries the marker `"[PII:R]"` — and at a concrete
untyped semantic entity, which is substituted as `"[PII:UNKNOWN]"`. -/
theorem c8_witness :
    (((0, 2), markerE "PII" "R")
        ∈ (buildSpanMap "ab".data [("PII", [("ab".data, "R")])] false false
            (EntityTracker.init fun _ => 0)).1 ∧
      ∃ cat lst etext etyp,
        (cat, lst) ∈ ([("PII", [("ab".data, "R")])] : Detected) ∧
        (etext, etyp) ∈ lst ∧ (((0, 2) : Span), markerE "PII" "R").2 = markerE cat etyp) ∧
    (3 < "John".data.length ∧
      redact_text_with_context (EntityTracker.init fun _ => 0) "hi John".data
        [("PII", [("John".data, none)])] false
        = (replaceAll "hi John".data "John".data (markerE "PII" "UNKNOWN"),
           EntityTracker.init fun _ => 0)) :=
  ⟨⟨by decide,
    c8_nonpseudonym_marker.1 "ab".data [("PII", [("ab".data, "R")])] false
      (EntityTracker.init fun _ => 0) ((0, 2), markerE "PII" "R") (by decide)⟩,
   ⟨by decide,
    c8_nonpseudonym_marker.2 (EntityTracker.init fun _ => 0) "hi John".data
      "PII" "John".data (by decide)⟩⟩

theorem splitSeqFuel_no_nl :
    ∀ (fuel : Nat) (l : List Char), l.length < fuel → '\n' ∉ l →
      splitSeqFuel nl2 fuel l = [l] := by
  intro fuel
  induction fuel with
  | zero => intro l hl _; omega
  | succ fuel ih =>
    intro l hl h
    cases l with
    | nil => simp [splitSeqFuel, nl2, List.isPrefixOf]
    | cons c rest =>
      have hc : ¬('\n' = c) := fun hx => h (List.mem_cons.mpr (Or.inl hx))
      have hr : '\n' ∉ rest := fun hx => h (List.mem_cons_of_mem _ hx)
      have hpre : (nl2.isPrefixOf (c :: rest)) = false := by
        have hbeq : (('\n' : Char) == c) = false := by
          simpa using hc
        simp [nl2, List.isPrefixOf, hbeq]
      have hrl : rest.length < fuel := by
        simp only [List.length_cons] at hl
        omega
      rw [splitSeqFuel]
      rw [if_neg (by simp [nl2]), if_neg (by simp [hpre])]
      simp only [ih rest hrl hr]

theorem splitSeq_no_nl (l : List Char) (h : '\n' ∉ l) : splitSeq nl2 l = [l] :=
  splitSeqFuel_no_nl (l.length + 1) l (Nat.lt_succ_self _) h

theorem dropWhile_eq_self_of_all {p : Char → Bool} (l : List Char)
    (h : ∀ c ∈ l, p c = false) : l.dropWhile p = l := by
  cases l with
  | nil => rfl
  | cons c rest => simp [List.dropWhile_cons, h c (List.mem_cons_self _ _)]

theorem pstrip_of_all_nonspace (l : List Char)
    (h : ∀ c ∈ l, isPySpace c = false) : pstrip l = l := by
  unfold pstrip
  rw [dropWhile_eq_self_of_all l h,
    dropWhile_eq_self_of_all _ (fun c hc => h c (by simpa using hc)),
    List.reverse_reverse]

theorem chunksOf_two (mx n : Nat) (a : Char) (h0 : mx ≠ 0) (h1 : mx < n)
    (h2 : n ≤ 2 * mx) :
    chunksOf mx (List.replicate n a)
      = [List.replicate mx a, List.replicate (n - mx) a] := by
  obtain ⟨m, rfl⟩ : ∃ m, n = m + 1 := ⟨n - 1, by omega⟩
  unfold chunksOf
  rw [List.length_replicate]
  simp only [chunksOfFuel]
  rw [List.take_replicate, List.drop_replicate]
  have hmin : min mx (m + 1) = mx := by omega
  rw [hmin]
  rw [if_neg (by
    simp only [List.length_replicate, not_or]
    exact ⟨h0, by omega⟩)]
  rw [if_pos (by
    simp only [List.length_replicate]
    right
    omega)]

theorem chunksOf_replicate_a :
    chunksOf MAX_TEXT_SIZE (List.replicate 100001 'a')
      = [List.replicate 100000 'a', List.replicate 1 'a'] := by
  have h := chunksOf_two 100000 100001 'a' (by norm_num) (by norm_num) (by norm_num)
  rw [show (100001 - 100000 : Nat) = 1 from by norm_num] at h
  exact h

/-- C7: evaluating `PresidioRedactionEngine.redact_text` on a single
100001-character paragraph with every chunk's processing failing: the two
fixed-size slices are each kept verbatim (never dropped), but the final
reassembly joins them with `"\n\n"`, so the output is not the original
text — the paragraph separator is injected between the slices of one
paragraph, contradicting the documented keep-the-original-chunk
data-preservation intent. -/
theorem presidioStep_big :
    presidioStep (fun _ => Except.error ()) ([], []) (List.replicate 100001 'a')
      = ([List.replicate 100000 'a', List.replicate 1 'a'], []) := by
  unfold presidioStep
  rw [if_neg (by
    rw [pstrip_of_all_nonspace _ (by
      intro c hc
      rw [List.eq_of_mem_replicate hc]
      rfl)]
    simp only [List.isEmpty_iff]
    intro hx
    have := congrArg List.length hx
    simp only [List.length_replicate, List.length_nil] at this
    omega)]
  rw [if_pos (by
    simp only [MAX_TEXT_SIZE, List.length_replicate, decide_eq_true_eq]
    omega)]
  rw [chunksOf_replicate_a]
  rw [List.foldl_cons, List.foldl_cons, List.foldl_nil]
  rfl

theorem c7_chunk_join_bug :
    presidio_redact_text (fun _ => Except.error ()) (List.replicate 100001 'a')
      = Except.ok (List.replicate 100000 'a' ++ nl2 ++ List.replicate 1 'a', []) ∧
    List.replicate 100000 'a' ++ nl2 ++ List.replicate 1 'a'
      ≠ List.replicate 100001 'a' := by
  constructor
  · unfold presidio_redact_text
    rw [if_neg (by
      simp only [List.isEmpty_iff]
      intro hx
      have := congrArg List.length hx
      simp only [List.length_replicate, List.length_nil] at this
      omega)]
    rw [if_pos (by
      simp only [MAX_TEXT_SIZE, List.length_replicate, decide_eq_true_eq]
      omega)]
    show Except.ok
        (List.intercalate nl2
          ((splitSeq nl2 (List.replicate 100001 'a')).foldl
            (presidioStep fun _ => Except.error ()) ([], [])).1,
         ((splitSeq nl2 (List.replicate 100001 'a')).foldl
            (presidioStep fun _ => Except.error ()) ([], [])).2)
      = Except.ok (List.replicate 100000 'a' ++ nl2 ++ List.replicate 1 'a', [])
    rw [splitSeq_no_nl _ (by
      simp only [List.mem_replicate, not_and]
      intro _
      decide)]
    rw [List.foldl_cons, List.foldl_nil, presidioStep_big]
    simp only [List.intercalate, List.intersperse, List.flatten, List.nil_append,
      List.append_nil, nl2, List.cons_append, List.append_assoc]
  · intro heq
    have h1 : ('\n' : Char) ∈ List.replicate 100000 'a' ++ nl2 ++ List.replicate 1 'a' :=
      List.mem_append.mpr (Or.inl (List.mem_append.mpr (Or.inr (by decide))))
    rw [heq] at h1
    rw [List.mem_replicate] at h1
    exact absurd h1.2 (by decide)

/-- C2 witness: the amended theorem at the concrete overlapping pair
`(0,5)` (length 5) and `(3,6)` (length 3). -/
theorem c2_witness :
    strictOv (3, 6) (0, 5) = true ∧ spanLen (3, 6) < spanLen (0, 5) ∧
    resolveSubst [(0, 5), (3, 6)] = [(0, 5)] ∧
    resolveSubst [(3, 6), (0, 5)] = [(0, 5)] :=
  ⟨by decide, by decide,
   (c2_two_candidate_longest_wins (0, 5) (3, 6) (by decide) (by decide)).1,
   (c2_two_candidate_longest_wins (0, 5) (3, 6) (by decide) (by decide)).2.1⟩

end Redaction
